import Mathlib

/-!
Verification development for the circular multi-environment experience
buffer of the `vel` reinforcement-learning library.

The repository ships the test suite of the buffer backend
(`vel/rl/buffers/tests/test_deque_multi_env_buffer.py`); the backend module
itself (`vel/rl/buffers/deque_multi_env_buffer_backend.py`) is not among the
provided sources.  The definitions below are therefore modelled from the
natural-language specification (spec.md), whose boundary behaviour is, as the
spec itself states in its design notes, "inferred from test behavior ...
preserved exactly as tested".  Every definition was checked against the
concrete expectations of the in-repository test file.

Observations are embedded as flattened integer arrays (`List Int`) of a fixed
per-buffer length `obs_size`; rewards and auxiliary fields are rationals
(the tests only use dyadic values such as `i/2` and `i/30`); `done` flags are
booleans.  A query result is `Except VelError _`: `VelError.velException`
models the buffer's RangeError (`vel.exceptions.VelException`) and
`VelError.assertionError` models a Python `assert` failure.
-/

deriving instance DecidableEq for Except

namespace Vel

/-- Error class of a buffer operation: `velException` is the buffer's
RangeError (vel's `VelException`); `assertionError` is the distinct
programmer-error / contract-violation class (a Python `assert`). -/
inductive VelError where
  | velException : String → VelError
  | assertionError : VelError
deriving DecidableEq

/-- One `store_transition` call's payload: per-environment observation,
action, reward, done flag and auxiliary fields (environment index ↦ value;
auxiliary fields are keyed by name). -/
structure StepInput where
  frames : Nat → List Int
  actions : Nat → List Int
  rewards : Nat → Rat
  dones : Nat → Bool
  extras : String → Nat → Rat

/-- Modelled from the spec: the circular multi-environment experience buffer
(missing source file `vel/rl/buffers/deque_multi_env_buffer_backend.py`).
Ring arrays are total maps from physical slot and environment index to the
stored value; `obs_size` is the flattened observation length, `obs_last_dim`
the size of the trailing observation axis (history stacking is only
shape-consistent when it is 1, per §4.2/§7 of the spec); `current_size` and
`write_pointer` are the fill counter and the write cursor of §3. -/
structure Buffer where
  capacity : Nat
  num_envs : Nat
  obs_size : Nat
  obs_last_dim : Nat
  act_size : Nat
  extra_names : List String
  frame_store : Nat → Nat → List Int
  action_store : Nat → Nat → List Int
  reward_store : Nat → Nat → Rat
  done_store : Nat → Nat → Bool
  extra_stores : String → Nat → Nat → Rat
  current_size : Nat
  write_pointer : Nat

/-- Modelled from the spec: freshly constructed buffer — pre-allocated
zeroed ring arrays, `current_size = 0`, `write_pointer = 0`. -/
def initBuffer (capacity num_envs obs_size obs_last_dim act_size : Nat)
    (extra_names : List String) : Buffer :=
  { capacity := capacity
    num_envs := num_envs
    obs_size := obs_size
    obs_last_dim := obs_last_dim
    act_size := act_size
    extra_names := extra_names
    frame_store := fun _ _ => List.replicate obs_size 0
    action_store := fun _ _ => List.replicate act_size 0
    reward_store := fun _ _ => 0
    done_store := fun _ _ => false
    extra_stores := fun _ _ _ => 0
    current_size := 0
    write_pointer := 0 }

/-- The most recently written physical slot (one behind the write cursor). -/
def Buffer.lastWritten (b : Buffer) : Nat :=
  (b.write_pointer + b.capacity - 1) % b.capacity

/-- Modelled from the spec: `store_transition` (§4.1) — writes every field at
physical slot `write_pointer` (auxiliary fields only for declared names),
increments `current_size` saturating at `capacity`, advances
`write_pointer` modulo `capacity`. -/
def store_transition (b : Buffer) (inp : StepInput) : Buffer :=
  { b with
    frame_store := fun s e =>
      if s = b.write_pointer then inp.frames e else b.frame_store s e
    action_store := fun s e =>
      if s = b.write_pointer then inp.actions e else b.action_store s e
    reward_store := fun s e =>
      if s = b.write_pointer then inp.rewards e else b.reward_store s e
    done_store := fun s e =>
      if s = b.write_pointer then inp.dones e else b.done_store s e
    extra_stores := fun n s e =>
      if n ∈ b.extra_names ∧ s = b.write_pointer then inp.extras n e
      else b.extra_stores n s e
    current_size := min (b.current_size + 1) b.capacity
    write_pointer := (b.write_pointer + 1) % b.capacity }

/-- The zero-valued padding observation (`np.zeros_like` a stored frame). -/
def zeroFrame (b : Buffer) : List Int := List.replicate b.obs_size 0

/-- Modelled from the spec: the backward history scan of `get_frame`
(§4.2 step 2).  `n` backward steps remain, `idx` is the current anchor slot,
`acc` holds the already collected window (oldest first).  Each step inspects
the slot one behind `idx`: hitting the most recently written slot of a full
buffer is the range error of §4.2's edge case; reaching before the start of a
partially filled buffer, or crossing a `done` barrier, emits zero padding and
freezes the anchor (so everything at or before the barrier stays zero);
otherwise the real stored observation is collected and the anchor moves back. -/
def frameAcc (b : Buffer) (e : Nat) : Nat → Nat → List (List Int) →
    Except VelError (List (List Int))
  | 0, _, acc => .ok acc
  | n + 1, idx, acc =>
    let prev := (idx + b.capacity - 1) % b.capacity
    if prev = b.lastWritten then
      .error (.velException "Cannot provide enough history for the frame")
    else if b.current_size < b.capacity ∧ idx ≤ prev then
      frameAcc b e n idx (zeroFrame b :: acc)
    else if b.done_store prev e then
      frameAcc b e n idx (zeroFrame b :: acc)
    else
      frameAcc b e n prev (b.frame_store prev e :: acc)

/-- Modelled from the spec: `get_frame` (§4.2) — the history window of
`hist` observations ending at slot `frame_idx` for environment `e`, oldest
first.  Rejects an index at or beyond `current_size` with the range error;
asserts (per §4.2/§7) that `hist > 1` is only requested against storage whose
trailing observation axis has size 1. -/
def get_frame (b : Buffer) (frame_idx e : Nat) (hist : Nat := 1) :
    Except VelError (List (List Int)) :=
  if b.current_size ≤ frame_idx then
    .error (.velException "Requested frame beyond the size of the buffer")
  else if 1 < hist ∧ b.obs_last_dim ≠ 1 then
    .error .assertionError
  else
    frameAcc b e (hist - 1) frame_idx [b.frame_store frame_idx e]

/-- Modelled from the spec: `get_frame_with_future` (§4.2) — the history
window ending at `frame_idx` together with the successor window ending one
step later.  The most recently written slot has no stored successor yet, so
querying it is the range error; when the queried step is a `done` boundary
the successor window is the shifted current window closed with zero padding
instead of the next episode's real first frame. -/
def get_frame_with_future (b : Buffer) (frame_idx e hist : Nat) :
    Except VelError (List (List Int) × List (List Int)) := do
  let past ← get_frame b frame_idx e hist
  if frame_idx = b.lastWritten then
    .error (.velException "Cannot provide enough future for the frame")
  else
    let future :=
      if b.done_store frame_idx e then
        past.drop 1 ++ [zeroFrame b]
      else
        past.drop 1 ++ [b.frame_store ((frame_idx + 1) % b.capacity) e]
    .ok (past, future)

/-- One sampled transition as returned by `get_transition` (§4.2): the
history-stacked observation, action, reward, done flag, successor
history-stacked observation, and the declared auxiliary fields. -/
structure Transition where
  state : List (List Int)
  action : List Int
  reward : Rat
  done : Bool
  state1 : List (List Int)
  extra : List (String × Rat)
deriving DecidableEq

/-- Modelled from the spec: `get_transition` (§4.2) — the transition at
`frame_idx` for environment `e`, with both observation windows and the
verbatim per-step fields at that slot. -/
def get_transition (b : Buffer) (frame_idx e : Nat) (hist : Nat := 1) :
    Except VelError Transition := do
  let pf ← get_frame_with_future b frame_idx e hist
  .ok { state := pf.1
        action := b.action_store frame_idx e
        reward := b.reward_store frame_idx e
        done := b.done_store frame_idx e
        state1 := pf.2
        extra := b.extra_names.map fun n => (n, b.extra_stores n frame_idx e) }

/-- Effectful map over a list in the `Except` monad, failing on the first
error (the loop shape of `get_batch`/`get_rollout`: no partial results). -/
def exList : List α → (α → Except VelError β) → Except VelError (List β)
  | [], _ => .ok []
  | x :: xs, f => do
    let y ← f x
    let ys ← exList xs f
    .ok (y :: ys)

/-- Whether an `Except` result is a success. -/
def exOk : Except VelError α → Bool
  | .ok _ => true
  | .error _ => false

/-- Modelled from the spec: `get_batch` (§4.4) — for an `[N, num_envs]`
index matrix (`rows` lists the N samples; a row holds one logical index per
environment column) collects the transition of every cell, failing with the
range error of the first invalid cell. -/
def get_batch (b : Buffer) (rows : List (List Nat)) (hist : Nat) :
    Except VelError (List (List Transition)) :=
  exList rows fun row =>
    exList (List.range b.num_envs) fun e =>
      get_transition b (row.getD e 0) e hist

/-- Wrap a (possibly negative) logical offset into a physical ring slot. -/
def ringIdx (cap : Nat) (z : Int) : Nat := (z % (cap : Int)).toNat

/-- Modelled from the spec: `get_rollout` (§4.4) — one ending index per
environment; returns the `rollout_length` consecutive transitions ending
there (ring-wrapped), reusing the single-transition reconstruction at each
offset. -/
def get_rollout (b : Buffer) (indexes : List Nat) (rollout_length hist : Nat) :
    Except VelError (List (List Transition)) :=
  exList (List.range b.num_envs) fun e =>
    exList (List.range rollout_length) fun i =>
      get_transition b
        (ringIdx b.capacity ((indexes.getD e 0 : Int) - rollout_length + 1 + i))
        e hist

/-- The rollout ending indices that the current fill level supports: those
`idx` for which `get_rollout` reads `rollout_length` consecutive valid
transitions in every environment simultaneously. -/
def rolloutValidIndices (b : Buffer) (rollout_length hist : Nat) : List Nat :=
  (List.range b.capacity).filter fun idx =>
    exOk (get_rollout b (List.replicate b.num_envs idx) rollout_length hist)

/-- Modelled from the spec: `sample_batch_rollout` (§4.3) — draws one ending
index per environment among the indices the current fill level supports
(`u` supplies the external random draw per environment), and fails with the
range error when no valid index exists. -/
def sample_batch_rollout (b : Buffer) (rollout_length hist : Nat)
    (u : Nat → Nat) : Except VelError (List Nat) :=
  let valid := rolloutValidIndices b rollout_length hist
  if valid.length = 0 then
    .error (.velException "Not enough elements in the buffer")
  else
    .ok ((List.range b.num_envs).map fun e => valid.getD (u e % valid.length) 0)

/-- A buffer built by `n` successive `store_transition` calls with payloads
`f 0, f 1, ..., f (n-1)` on a fresh buffer. -/
def buildBuffer (capacity num_envs obs_size obs_last_dim act_size : Nat)
    (extra_names : List String) (f : Nat → StepInput) (n : Nat) : Buffer :=
  (List.range n).foldl (fun b i => store_transition b (f i))
    (initBuffer capacity num_envs obs_size obs_last_dim act_size extra_names)

/-- Per-frame maxima of a history window (the tests compare
`get_frame(...).max(0).max(0)`; all entries of one stored frame are equal,
and every stored value is non-negative, so folding `max` from 0 recovers
the per-frame scalar). -/
def obsMaxes : Except VelError (List (List Int)) → Except VelError (List Int) :=
  Except.map (List.map fun fr => fr.foldl max 0)

/-! ### The concrete scenario buffers of the test suite -/

/-- Step `i` of the main test scenario (`get_filled_buffer` and friends):
`Box(2,2,1)` observations, all four entries `(i+1)` in environment 0 and
`10*(i+1)` in environment 1, scalar action 0, reward `i/2`, no dones. -/
def scaledStep (i : Nat) : StepInput :=
  { frames := fun e =>
      if e = 0 then List.replicate 4 ((i : Int) + 1)
      else List.replicate 4 (10 * ((i : Int) + 1))
    actions := fun _ => [0]
    rewards := fun _ => mkRat i 2
    dones := fun _ => false
    extras := fun _ _ => 0 }

/-- `get_filled_buffer`: capacity 20, 2 environments, 30 scaled stores. -/
def filledBuffer : Buffer := buildBuffer 20 2 4 1 1 [] scaledStep 30

/-- `get_half_filled_buffer`: capacity 20, 2 environments, 10 scaled stores. -/
def halfBuffer : Buffer := buildBuffer 20 2 4 1 1 [] scaledStep 10

/-- Step `i` of `get_filled_buffer_with_dones`: scaled observations plus the
done flags `[i ∈ {2,5,10,13,18,22,28}, i+1 ∈ {2,5,10,13,18,22,28}]`. -/
def doneStep (i : Nat) : StepInput :=
  { scaledStep i with
    dones := fun e =>
      if e = 0 then decide (i ∈ [2, 5, 10, 13, 18, 22, 28])
      else decide (i + 1 ∈ [2, 5, 10, 13, 18, 22, 28]) }

/-- `get_filled_buffer_with_dones`: 30 stores with the injected done flags. -/
def donesBuffer : Buffer := buildBuffer 20 2 4 1 1 [] doneStep 30

/-- Step `i` of `get_filled_buffer_extra_info`: scaled observations plus the
auxiliary field `neglogp = [i/30, (i+1)/30]`. -/
def extraStep (i : Nat) : StepInput :=
  { scaledStep i with
    extras := fun _ e =>
      if e = 0 then mkRat i 30 else mkRat (i + 1) 30 }

/-- `get_filled_buffer_extra_info`: 30 stores with the `neglogp` field. -/
def extraBuffer : Buffer := buildBuffer 20 2 4 1 1 ["neglogp"] extraStep 30

/-- Step `i` of `get_filled_buffer1x1`: `Box(2,)` observations
`[i+1, 10*(i+1)]` in both environments (no trailing frame-history axis),
actions `[0, i]` / `[2i, 3i]`, reward `i/2`, no dones. -/
def flexStep (i : Nat) : StepInput :=
  { frames := fun _ => [(i : Int) + 1, 10 * ((i : Int) + 1)]
    actions := fun e => if e = 0 then [0, (i : Int)] else [2 * i, 3 * i]
    rewards := fun _ => mkRat i 2
    dones := fun _ => false
    extras := fun _ _ => 0 }

/-- `get_filled_buffer1x1`: observation shape `(2,)`, whose trailing axis has
size 2, so history stacking is not shape-consistent. -/
def flexBuffer : Buffer := buildBuffer 20 2 2 2 2 [] flexStep 30

/-- Whether a query failed with the buffer's RangeError (`VelException`),
as opposed to succeeding or hitting the assertion class. -/
def isRangeErr : Except VelError α → Bool
  | .error (.velException _) => true
  | _ => false

/-! ### Generic lemmas about `exList` and `exOk` -/

theorem exOk_iff_exists {r : Except VelError α} : exOk r = true ↔ ∃ a, r = .ok a := by
  cases r <;> simp [exOk]

theorem exList_cons_ok {f : α → Except VelError β} {x : α} {xs : List α}
    {ys : List β} (h : exList (x :: xs) f = .ok ys) :
    ∃ y ts, f x = .ok y ∧ exList xs f = .ok ts ∧ ys = y :: ts := by
  simp only [exList] at h
  cases hfx : f x with
  | error err => rw [hfx] at h; simp [Bind.bind, Except.bind] at h
  | ok y =>
    rw [hfx] at h
    cases hxs : exList xs f with
    | error err => rw [hxs] at h; simp [Bind.bind, Except.bind] at h
    | ok ts =>
      rw [hxs] at h
      simp only [Bind.bind, Except.bind] at h
      cases h
      exact ⟨y, ts, rfl, rfl, rfl⟩

theorem exList_ok_length {f : α → Except VelError β} :
    ∀ {l : List α} {ys : List β}, exList l f = .ok ys → ys.length = l.length := by
  intro l
  induction l with
  | nil =>
    intro ys h
    simp only [exList] at h
    cases h
    rfl
  | cons x xs ih =>
    intro ys h
    obtain ⟨y, ts, _, hxs, rfl⟩ := exList_cons_ok h
    simp [ih hxs]

theorem exList_get {f : α → Except VelError β} :
    ∀ {l : List α} {ys : List β}, exList l f = .ok ys →
      ∀ {k : Nat} {x : α}, l.get? k = some x →
        ∃ y, ys.get? k = some y ∧ f x = .ok y := by
  intro l
  induction l with
  | nil => intro ys h k x hk; simp at hk
  | cons a as ih =>
    intro ys h k x hk
    obtain ⟨y, ts, hfa, has, rfl⟩ := exList_cons_ok h
    cases k with
    | zero =>
      simp at hk
      subst hk
      exact ⟨y, rfl, hfa⟩
    | succ k =>
      simp only [List.get?] at hk ⊢
      exact ih has hk

theorem exOk_exList_iff {f : α → Except VelError β} :
    ∀ {l : List α}, exOk (exList l f) = true ↔ ∀ x ∈ l, exOk (f x) = true := by
  intro l
  induction l with
  | nil => simp [exList, exOk]
  | cons a as ih =>
    constructor
    · intro h
      obtain ⟨ys, hys⟩ := exOk_iff_exists.mp h
      obtain ⟨y, ts, hfa, has, rfl⟩ := exList_cons_ok hys
      intro x hx
      rcases List.mem_cons.mp hx with rfl | hx
      · exact exOk_iff_exists.mpr ⟨y, hfa⟩
      · exact ih.mp (exOk_iff_exists.mpr ⟨ts, has⟩) x hx
    · intro h
      obtain ⟨y, hfa⟩ := exOk_iff_exists.mp (h a (List.mem_cons_self a as))
      obtain ⟨ts, has⟩ := exOk_iff_exists.mp
        (ih.mpr fun x hx => h x (List.mem_cons_of_mem a hx))
      apply exOk_iff_exists.mpr
      exact ⟨y :: ts, by simp only [exList, hfa, has, Bind.bind, Except.bind]⟩

/-! ### Structural lemmas about the history scan -/

theorem frameAcc_ok_append (b : Buffer) (e : Nat) :
    ∀ (n idx : Nat) (acc w : List (List Int)),
      frameAcc b e n idx acc = .ok w →
      ∃ pre, w = pre ++ acc ∧ pre.length = n := by
  intro n
  induction n with
  | zero =>
    intro idx acc w h
    simp only [frameAcc] at h
    cases h
    exact ⟨[], by simp⟩
  | succ n ih =>
    intro idx acc w h
    simp only [frameAcc] at h
    split at h
    · simp at h
    · split at h
      · obtain ⟨pre, rfl, hlen⟩ := ih _ _ _ h
        exact ⟨pre ++ [zeroFrame b], by simp, by simp [hlen]⟩
      · split at h
        · obtain ⟨pre, rfl, hlen⟩ := ih _ _ _ h
          exact ⟨pre ++ [zeroFrame b], by simp, by simp [hlen]⟩
        · obtain ⟨pre, rfl, hlen⟩ := ih _ _ _ h
          exact ⟨pre ++ [b.frame_store ((idx + b.capacity - 1) % b.capacity) e],
            by simp, by simp [hlen]⟩

theorem frameAcc_stuck (b : Buffer) (e idx : Nat)
    (hst : (b.current_size < b.capacity ∧ idx ≤ (idx + b.capacity - 1) % b.capacity) ∨
           b.done_store ((idx + b.capacity - 1) % b.capacity) e = true) :
    ∀ (n : Nat) (acc w : List (List Int)),
      frameAcc b e n idx acc = .ok w →
      w = List.replicate n (zeroFrame b) ++ acc := by
  intro n
  induction n with
  | zero =>
    intro acc w h
    simp only [frameAcc] at h
    cases h
    simp
  | succ n ih =>
    intro acc w h
    simp only [frameAcc] at h
    split at h
    · simp at h
    · split at h
      next hnf =>
        have hw := ih _ _ h
        subst hw
        simp [List.replicate_succ', List.append_assoc]
      next hnf =>
        split at h
        next hdn =>
          have hw := ih _ _ h
          subst hw
          simp [List.replicate_succ', List.append_assoc]
        next hdn =>
          rcases hst with hst | hst
          · exact absurd hst hnf
          · exact absurd hst hdn

theorem frameAcc_mem_length (b : Buffer) (e : Nat)
    (hshape : ∀ s e2, (b.frame_store s e2).length = b.obs_size) :
    ∀ (n idx : Nat) (acc w : List (List Int)),
      (∀ fr ∈ acc, fr.length = b.obs_size) →
      frameAcc b e n idx acc = .ok w →
      ∀ fr ∈ w, fr.length = b.obs_size := by
  intro n
  induction n with
  | zero =>
    intro idx acc w hacc h
    simp only [frameAcc] at h
    cases h
    exact hacc
  | succ n ih =>
    intro idx acc w hacc h
    simp only [frameAcc] at h
    split at h
    · simp at h
    · split at h
      · refine ih _ _ _ ?_ h
        intro fr hfr
        rcases List.mem_cons.mp hfr with rfl | hfr
        · simp [zeroFrame]
        · exact hacc fr hfr
      · split at h
        · refine ih _ _ _ ?_ h
          intro fr hfr
          rcases List.mem_cons.mp hfr with rfl | hfr
          · simp [zeroFrame]
          · exact hacc fr hfr
        · refine ih _ _ _ ?_ h
          intro fr hfr
          rcases List.mem_cons.mp hfr with rfl | hfr
          · exact hshape _ _
          · exact hacc fr hfr

theorem frameAcc_near_done (b : Buffer) (e m : Nat)
    (hdone : b.done_store m e = true) :
    ∀ (n idx : Nat) (acc w : List (List Int)),
      idx < b.capacity → m < idx → idx - m ≤ n →
      (∀ j, m < j → j < idx → b.done_store j e = false) →
      frameAcc b e n idx acc = .ok w →
      w = List.replicate (n - (idx - 1 - m)) (zeroFrame b) ++
          (List.range (idx - 1 - m)).map (fun k => b.frame_store (m + 1 + k) e) ++
          acc := by
  intro n
  induction n with
  | zero =>
    intro idx acc w h1 h2 h3 h4 h
    exact absurd h3 (by omega)
  | succ n ih =>
    intro idx acc w hcap hm hreach hnear h
    have hprev : (idx + b.capacity - 1) % b.capacity = idx - 1 := by
      have h1 : idx + b.capacity - 1 = (idx - 1) + b.capacity := by omega
      rw [h1, Nat.add_mod_right, Nat.mod_eq_of_lt (by omega)]
    simp only [frameAcc, hprev] at h
    by_cases hlw : idx - 1 = b.lastWritten
    · rw [if_pos hlw] at h
      simp at h
    · rw [if_neg hlw, if_neg (fun hc : b.current_size < b.capacity ∧ idx ≤ idx - 1 =>
        absurd hc.2 (by omega))] at h
      by_cases hm1 : m = idx - 1
      · rw [if_pos (by rw [← hm1]; exact hdone)] at h
        have hst : (b.current_size < b.capacity ∧
              idx ≤ (idx + b.capacity - 1) % b.capacity) ∨
            b.done_store ((idx + b.capacity - 1) % b.capacity) e = true := by
          right
          rw [hprev, ← hm1]
          exact hdone
        have hw := frameAcc_stuck b e idx hst n _ _ h
        subst hw
        have hz : idx - 1 - m = 0 := by omega
        rw [hz]
        simp [List.replicate_succ', List.append_assoc]
      · have hdn : b.done_store (idx - 1) e = false := hnear (idx - 1) (by omega) (by omega)
        rw [if_neg (by simp [hdn])] at h
        have key := ih (idx - 1) (b.frame_store (idx - 1) e :: acc) w (by omega) (by omega)
          (by omega) (fun j hj1 hj2 => hnear j hj1 (by omega)) h
        subst key
        have ha : idx - 1 - m = (idx - 2 - m) + 1 := by omega
        rw [ha]
        have hcount : n + 1 - (idx - 2 - m + 1) = n - (idx - 2 - m) := by omega
        rw [hcount, List.range_succ, List.map_append]
        have hlast : m + 1 + (idx - 2 - m) = idx - 1 := by omega
        simp [hlast, List.append_assoc,
          show idx - 1 - 1 - m = idx - 2 - m from by omega]

theorem get_frame_ok_elim {b : Buffer} {idx e hist : Nat} {w : List (List Int)}
    (h : get_frame b idx e hist = .ok w) :
    idx < b.current_size ∧ ¬(1 < hist ∧ b.obs_last_dim ≠ 1) ∧
    frameAcc b e (hist - 1) idx [b.frame_store idx e] = .ok w := by
  simp only [get_frame] at h
  split at h
  · simp at h
  · split at h
    · simp at h
    · next h1 h2 => exact ⟨by omega, h2, h⟩

/-! ### Claim C1: the zero-padding law -/

/-- Claim C1 (amended): if `done=true` is stored at timestep `m` of
environment `e`, `m` is the most recent done boundary before the valid query
index `q` (no other done flag lies strictly between `m` and `q`), and the
history window of length `hist` reaches back to or past `m`, then the window
returned by `get_frame` consists of zero frames at every logical position
`≤ m` followed by the real stored observations at positions `m+1 .. q`. -/
theorem claim1_zero_padding_amended (b : Buffer) (e q m hist : Nat)
    (w : List (List Int))
    (hcs : b.current_size ≤ b.capacity)
    (hdone : b.done_store m e = true)
    (hmq : m < q)
    (hreach : q - m ≤ hist - 1)
    (hnear : ∀ j, m < j → j < q → b.done_store j e = false)
    (hok : get_frame b q e hist = .ok w) :
    w = List.replicate (hist - 1 - (q - 1 - m)) (zeroFrame b) ++
        (List.range (q - 1 - m)).map (fun k => b.frame_store (m + 1 + k) e) ++
        [b.frame_store q e] := by
  obtain ⟨hq, _, hacc⟩ := get_frame_ok_elim hok
  exact frameAcc_near_done b e m hdone (hist - 1) q _ w (by omega) hmq hreach hnear hacc

/-- Claim C1 as frozen is refuted by the dones scenario: environment 1 has
done flags at slots 1 and 7; querying slot 9 with history 10 gives a window
whose slot at logical position 3 (strictly after the done at `m = 1`, within
a window that reaches back past `m`) is zero, not the real stored
observation `List.replicate 4 240` — the claim's "slots strictly after m
hold the real stored observations" fails when another done boundary (slot 7)
lies between `m` and the query. -/
theorem claim1_counterexample :
    donesBuffer.done_store 1 1 = true ∧
    donesBuffer.done_store 7 1 = true ∧
    get_frame donesBuffer 9 1 10 =
      .ok (List.replicate 8 (zeroFrame donesBuffer) ++
           [List.replicate 4 290, List.replicate 4 300]) ∧
    (List.replicate 8 (zeroFrame donesBuffer) ++
      [List.replicate 4 290, List.replicate 4 300]).get? 3 =
        some (List.replicate 4 0) ∧
    donesBuffer.frame_store 3 1 = List.replicate 4 240 ∧
    List.replicate 4 (240 : Int) ≠ List.replicate 4 0 := by
  decide

/-! ### Claim C7: the frame shape law -/

/-- Claim C7: for every successful `get_frame(index, env, h)` call with
`h ≥ 1` on a buffer whose stored frames all have the declared observation
size, the result stacks exactly `h` observation frames (each of the declared
size) and its last (newest) slot is the raw stored observation at the
queried index. -/
theorem claim7_frame_shape (b : Buffer) (idx e hist : Nat) (w : List (List Int))
    (hh : 1 ≤ hist)
    (hshape : ∀ s e2, (b.frame_store s e2).length = b.obs_size)
    (hok : get_frame b idx e hist = .ok w) :
    w.length = hist ∧ w.getLast? = some (b.frame_store idx e) ∧
    ∀ fr ∈ w, fr.length = b.obs_size := by
  obtain ⟨hq, _, hacc⟩ := get_frame_ok_elim hok
  obtain ⟨pre, rfl, hlen⟩ := frameAcc_ok_append b e _ _ _ _ hacc
  refine ⟨?_, ?_, ?_⟩
  · simp only [List.length_append, List.length_singleton, hlen]
    omega
  · exact List.getLast?_concat _
  · refine frameAcc_mem_length b e hshape _ _ _ _ ?_ hacc
    intro fr hfr
    rcases List.mem_singleton.mp hfr with rfl
    exact hshape _ _

/-! ### Lemmas about buffers built by repeated stores -/

theorem store_capacity (b : Buffer) (inp : StepInput) :
    (store_transition b inp).capacity = b.capacity := rfl

theorem store_num_envs (b : Buffer) (inp : StepInput) :
    (store_transition b inp).num_envs = b.num_envs := rfl

theorem store_extra_names (b : Buffer) (inp : StepInput) :
    (store_transition b inp).extra_names = b.extra_names := rfl

theorem store_obs_size (b : Buffer) (inp : StepInput) :
    (store_transition b inp).obs_size = b.obs_size := rfl

theorem buildBuffer_succ (cap ne os old as : Nat) (names : List String)
    (f : Nat → StepInput) (n : Nat) :
    buildBuffer cap ne os old as names f (n + 1) =
      store_transition (buildBuffer cap ne os old as names f n) (f n) := by
  simp only [buildBuffer, List.range_succ, List.foldl_append, List.foldl_cons,
    List.foldl_nil]

theorem buildBuffer_capacity (cap ne os old as : Nat) (names : List String)
    (f : Nat → StepInput) : ∀ n, (buildBuffer cap ne os old as names f n).capacity = cap := by
  intro n
  induction n with
  | zero => rfl
  | succ n ih => rw [buildBuffer_succ, store_capacity]; exact ih

theorem buildBuffer_num_envs (cap ne os old as : Nat) (names : List String)
    (f : Nat → StepInput) : ∀ n, (buildBuffer cap ne os old as names f n).num_envs = ne := by
  intro n
  induction n with
  | zero => rfl
  | succ n ih => rw [buildBuffer_succ, store_num_envs]; exact ih

theorem buildBuffer_extra_names (cap ne os old as : Nat) (names : List String)
    (f : Nat → StepInput) :
    ∀ n, (buildBuffer cap ne os old as names f n).extra_names = names := by
  intro n
  induction n with
  | zero => rfl
  | succ n ih => rw [buildBuffer_succ, store_extra_names]; exact ih

theorem buildBuffer_obs_size (cap ne os old as : Nat) (names : List String)
    (f : Nat → StepInput) :
    ∀ n, (buildBuffer cap ne os old as names f n).obs_size = os := by
  intro n
  induction n with
  | zero => rfl
  | succ n ih => rw [buildBuffer_succ, store_obs_size]; exact ih

theorem mod_succ_mod (n cap : Nat) : (n % cap + 1) % cap = (n + 1) % cap := by
  conv_rhs => rw [Nat.add_mod]
  rw [Nat.add_mod (n % cap) 1, Nat.mod_mod_of_dvd n (dvd_refl cap)]

/-- A logical timestep `i` placed by two different store counts in the same
ring slot must be at least a full capacity apart. -/
theorem mod_eq_ge_capacity {i n cap : Nat} (hlt : i < n) (h : i % cap = n % cap) :
    i + cap ≤ n := by
  have hdvd : cap ∣ n - i := (Nat.modEq_iff_dvd' (Nat.le_of_lt hlt)).mp h
  have := Nat.le_of_dvd (by omega) hdvd
  omega

/-- Content of a buffer after `n` stores: the fill counter saturates at
capacity, the write cursor is `n % capacity`, and every one of the most
recent `capacity` timesteps is retrievable verbatim from its ring slot
(all five field families). -/
theorem buildBuffer_content (cap ne os old as : Nat) (names : List String)
    (f : Nat → StepInput) :
    ∀ n, (buildBuffer cap ne os old as names f n).current_size = min n cap ∧
      (buildBuffer cap ne os old as names f n).write_pointer = n % cap ∧
      ∀ i e2, i < n → n ≤ i + cap →
        (buildBuffer cap ne os old as names f n).frame_store (i % cap) e2 =
            (f i).frames e2 ∧
        (buildBuffer cap ne os old as names f n).action_store (i % cap) e2 =
            (f i).actions e2 ∧
        (buildBuffer cap ne os old as names f n).reward_store (i % cap) e2 =
            (f i).rewards e2 ∧
        (buildBuffer cap ne os old as names f n).done_store (i % cap) e2 =
            (f i).dones e2 ∧
        ∀ nm ∈ names,
          (buildBuffer cap ne os old as names f n).extra_stores nm (i % cap) e2 =
            (f i).extras nm e2 := by
  intro n
  induction n with
  | zero =>
    refine ⟨by simp [buildBuffer, initBuffer], by simp [buildBuffer, initBuffer], ?_⟩
    intro i e2 hi _
    exact absurd hi (by omega)
  | succ n ih =>
    obtain ⟨ih1, ih2, ih3⟩ := ih
    rw [buildBuffer_succ]
    refine ⟨?_, ?_, ?_⟩
    · show min ((buildBuffer cap ne os old as names f n).current_size + 1)
        (buildBuffer cap ne os old as names f n).capacity = min (n + 1) cap
      rw [ih1, buildBuffer_capacity]
      omega
    · show ((buildBuffer cap ne os old as names f n).write_pointer + 1) %
        (buildBuffer cap ne os old as names f n).capacity = (n + 1) % cap
      rw [ih2, buildBuffer_capacity, mod_succ_mod]
    · intro i e2 hi hrecent
      rcases Nat.lt_or_ge i n with hin | hin
      · have hne : ¬(i % cap = (buildBuffer cap ne os old as names f n).write_pointer) := by
          rw [ih2]
          intro hc
          have := mod_eq_ge_capacity hin hc
          omega
        have hkeep := ih3 i e2 hin (by omega)
        refine ⟨?_, ?_, ?_, ?_, ?_⟩
        · show (if i % cap = (buildBuffer cap ne os old as names f n).write_pointer
              then (f n).frames e2
              else (buildBuffer cap ne os old as names f n).frame_store (i % cap) e2) =
            (f i).frames e2
          rw [if_neg hne]
          exact hkeep.1
        · show (if i % cap = (buildBuffer cap ne os old as names f n).write_pointer
              then (f n).actions e2
              else (buildBuffer cap ne os old as names f n).action_store (i % cap) e2) =
            (f i).actions e2
          rw [if_neg hne]
          exact hkeep.2.1
        · show (if i % cap = (buildBuffer cap ne os old as names f n).write_pointer
              then (f n).rewards e2
              else (buildBuffer cap ne os old as names f n).reward_store (i % cap) e2) =
            (f i).rewards e2
          rw [if_neg hne]
          exact hkeep.2.2.1
        · show (if i % cap = (buildBuffer cap ne os old as names f n).write_pointer
              then (f n).dones e2
              else (buildBuffer cap ne os old as names f n).done_store (i % cap) e2) =
            (f i).dones e2
          rw [if_neg hne]
          exact hkeep.2.2.2.1
        · intro nm hnm
          show (if nm ∈ (buildBuffer cap ne os old as names f n).extra_names ∧
                i % cap = (buildBuffer cap ne os old as names f n).write_pointer
              then (f n).extras nm e2
              else (buildBuffer cap ne os old as names f n).extra_stores nm (i % cap) e2) =
            (f i).extras nm e2
          rw [if_neg (fun hc => hne hc.2)]
          exact hkeep.2.2.2.2 nm hnm
      · have hie : i = n := by omega
        subst hie
        have heq : i % cap = (buildBuffer cap ne os old as names f i).write_pointer := by
          rw [ih2]
        refine ⟨?_, ?_, ?_, ?_, ?_⟩
        · show (if i % cap = (buildBuffer cap ne os old as names f i).write_pointer
              then (f i).frames e2
              else (buildBuffer cap ne os old as names f i).frame_store (i % cap) e2) =
            (f i).frames e2
          rw [if_pos heq]
        · show (if i % cap = (buildBuffer cap ne os old as names f i).write_pointer
              then (f i).actions e2
              else (buildBuffer cap ne os old as names f i).action_store (i % cap) e2) =
            (f i).actions e2
          rw [if_pos heq]
        · show (if i % cap = (buildBuffer cap ne os old as names f i).write_pointer
              then (f i).rewards e2
              else (buildBuffer cap ne os old as names f i).reward_store (i % cap) e2) =
            (f i).rewards e2
          rw [if_pos heq]
        · show (if i % cap = (buildBuffer cap ne os old as names f i).write_pointer
              then (f i).dones e2
              else (buildBuffer cap ne os old as names f i).done_store (i % cap) e2) =
            (f i).dones e2
          rw [if_pos heq]
        · intro nm hnm
          show (if nm ∈ (buildBuffer cap ne os old as names f i).extra_names ∧
                i % cap = (buildBuffer cap ne os old as names f i).write_pointer
              then (f i).extras nm e2
              else (buildBuffer cap ne os old as names f i).extra_stores nm (i % cap) e2) =
            (f i).extras nm e2
          rw [if_pos ⟨by rw [buildBuffer_extra_names]; exact hnm, heq⟩]

/-- Every stored frame of a built buffer has the declared flattened
observation size, provided every step's payload does. -/
theorem buildBuffer_frame_length (cap ne os old as : Nat) (names : List String)
    (f : Nat → StepInput) (hf : ∀ i e2, ((f i).frames e2).length = os) :
    ∀ n s e2, ((buildBuffer cap ne os old as names f n).frame_store s e2).length = os := by
  intro n
  induction n with
  | zero =>
    intro s e2
    simp [buildBuffer, initBuffer]
  | succ n ih =>
    intro s e2
    rw [buildBuffer_succ]
    show (if s = (buildBuffer cap ne os old as names f n).write_pointer
        then (f n).frames e2
        else (buildBuffer cap ne os old as names f n).frame_store s e2).length = os
    split
    · exact hf n e2
    · exact ih s e2

/-! ### Claim C2: full-buffer circular reconstruction (concrete scenario) -/

/-- Claim C2: after 30 scaled `store_transition` calls on a capacity-20
buffer with 2 environments, `get_frame(0,0,4)` returns the stack with
per-frame maxima `[18,19,20,21]` and `get_frame(9,1,4)` the stack with
maxima `[270,280,290,300]`; the windows are exactly the most recent stored
observations drawn from the immediately preceding slots modulo capacity
(slot 0 holds store 20, slots 17,18,19 hold stores 17,18,19). -/
theorem claim2_full_buffer_reconstruction :
    get_frame filledBuffer 0 0 4 =
      .ok [List.replicate 4 18, List.replicate 4 19, List.replicate 4 20,
           List.replicate 4 21] ∧
    obsMaxes (get_frame filledBuffer 0 0 4) = .ok [18, 19, 20, 21] ∧
    get_frame filledBuffer 9 1 4 =
      .ok [List.replicate 4 270, List.replicate 4 280, List.replicate 4 290,
           List.replicate 4 300] ∧
    obsMaxes (get_frame filledBuffer 9 1 4) = .ok [270, 280, 290, 300] ∧
    filledBuffer.current_size = 20 ∧
    filledBuffer.write_pointer = 10 ∧
    filledBuffer.frame_store 0 0 = (scaledStep 20).frames 0 ∧
    filledBuffer.frame_store 17 0 = (scaledStep 17).frames 0 ∧
    filledBuffer.frame_store 18 0 = (scaledStep 18).frames 0 ∧
    filledBuffer.frame_store 19 0 = (scaledStep 19).frames 0 ∧
    filledBuffer.frame_store 9 1 = (scaledStep 29).frames 1 := by
  decide

/-! ### Claim C4: the concrete excluded zone of the full scenario -/

/-- Claim C4: in the capacity-20, 2-environment, 30-store scenario with
history length 4, `get_frame` raises the range error exactly at queried
indices 10, 11 and 12 (for either environment) and succeeds at indices
0–9 and 13–19 (for either environment). -/
theorem claim4_excluded_zone :
    (List.range 20).map (fun i =>
        (exOk (get_frame filledBuffer i 0 4), isRangeErr (get_frame filledBuffer i 0 4),
         exOk (get_frame filledBuffer i 1 4), isRangeErr (get_frame filledBuffer i 1 4))) =
      [(true, false, true, false), (true, false, true, false),
       (true, false, true, false), (true, false, true, false),
       (true, false, true, false), (true, false, true, false),
       (true, false, true, false), (true, false, true, false),
       (true, false, true, false), (true, false, true, false),
       (false, true, false, true), (false, true, false, true),
       (false, true, false, true),
       (true, false, true, false), (true, false, true, false),
       (true, false, true, false), (true, false, true, false),
       (true, false, true, false), (true, false, true, false),
       (true, false, true, false)] ∧
    isRangeErr (get_frame filledBuffer 20 0 4) = true ∧
    isRangeErr (get_frame filledBuffer 25 1 4) = true := by
  decide

/-! ### Destructuring successful queries -/

theorem get_fwf_ok_elim {b : Buffer} {idx e hist : Nat}
    {pf : List (List Int) × List (List Int)}
    (h : get_frame_with_future b idx e hist = .ok pf) :
    get_frame b idx e hist = .ok pf.1 ∧ idx ≠ b.lastWritten ∧
    pf.2 = (if b.done_store idx e = true then pf.1.drop 1 ++ [zeroFrame b]
            else pf.1.drop 1 ++ [b.frame_store ((idx + 1) % b.capacity) e]) := by
  simp only [get_frame_with_future] at h
  cases hgf : get_frame b idx e hist with
  | error err => rw [hgf] at h; simp [Bind.bind, Except.bind] at h
  | ok past =>
    rw [hgf] at h
    simp only [Bind.bind, Except.bind] at h
    by_cases hlw : idx = b.lastWritten
    · rw [if_pos hlw] at h
      simp at h
    · rw [if_neg hlw] at h
      cases h
      exact ⟨rfl, hlw, rfl⟩

theorem get_transition_ok_elim {b : Buffer} {idx e hist : Nat} {tr : Transition}
    (h : get_transition b idx e hist = .ok tr) :
    ∃ pf, get_frame_with_future b idx e hist = .ok pf ∧
      tr.state = pf.1 ∧ tr.state1 = pf.2 ∧
      tr.action = b.action_store idx e ∧ tr.reward = b.reward_store idx e ∧
      tr.done = b.done_store idx e ∧
      tr.extra = b.extra_names.map (fun nm => (nm, b.extra_stores nm idx e)) := by
  simp only [get_transition] at h
  cases hpf : get_frame_with_future b idx e hist with
  | error err => rw [hpf] at h; simp [Bind.bind, Except.bind] at h
  | ok pf =>
    rw [hpf] at h
    simp only [Bind.bind, Except.bind] at h
    cases h
    exact ⟨pf, rfl, rfl, rfl, rfl, rfl, rfl, rfl⟩

/-- A successful `get_batch` determines every cell: row `r`, column `c` of
the result is the transition of the queried index of that cell. -/
theorem get_batch_cell {b : Buffer} {rows : List (List Nat)} {hist : Nat}
    {res : List (List Transition)} {r c : Nat} {row : List Nat}
    {trow : List Transition} {tr : Transition}
    (hb : get_batch b rows hist = .ok res) (hrow : rows.get? r = some row)
    (hres : res.get? r = some trow) (hcell : trow.get? c = some tr) :
    get_transition b (row.getD c 0) c hist = .ok tr := by
  obtain ⟨trow2, hres2, hinner⟩ := exList_get hb hrow
  rw [hres2] at hres
  have htw := Option.some.inj hres
  subst htw
  obtain ⟨hlt, _⟩ := List.get?_eq_some.mp hcell
  have hc2 : c < b.num_envs := by
    have hlen := exList_ok_length hinner
    rw [hlen, List.length_range] at hlt
    exact hlt
  obtain ⟨tr2, hcell2, htr2⟩ := exList_get hinner
    (by rw [List.get?_eq_getElem?]; exact List.getElem?_range hc2)
  rw [hcell2] at hcell
  have htt := Option.some.inj hcell
  subst htt
  exact htr2

/-! ### Claim C5: the capacity law -/

/-- Claim C5: `current_size` is `min n capacity` after `n` stores (so it
starts at 0, grows by exactly one per `store_transition` call until it
reaches capacity, and then stays there), and the buffer retains verbatim
exactly the most recent `capacity` timesteps of every environment (each
recent store `i` readable at ring slot `i % capacity`; older stores are
overwritten because every slot is occupied by a recent one). -/
theorem claim5_capacity_law (cap ne os old as : Nat) (names : List String)
    (f : Nat → StepInput) (n : Nat) :
    (buildBuffer cap ne os old as names f n).current_size = min n cap ∧
    (buildBuffer cap ne os old as names f (n + 1)).current_size =
      min ((buildBuffer cap ne os old as names f n).current_size + 1) cap ∧
    ∀ i e2, i < n → n ≤ i + cap →
      (buildBuffer cap ne os old as names f n).frame_store (i % cap) e2 =
          (f i).frames e2 ∧
      (buildBuffer cap ne os old as names f n).action_store (i % cap) e2 =
          (f i).actions e2 ∧
      (buildBuffer cap ne os old as names f n).reward_store (i % cap) e2 =
          (f i).rewards e2 ∧
      (buildBuffer cap ne os old as names f n).done_store (i % cap) e2 =
          (f i).dones e2 := by
  obtain ⟨h1, _, h3⟩ := buildBuffer_content cap ne os old as names f n
  obtain ⟨h1s, _, _⟩ := buildBuffer_content cap ne os old as names f (n + 1)
  refine ⟨h1, ?_, ?_⟩
  · rw [h1s, h1]
    omega
  · intro i e2 hi hr
    obtain ⟨hf, ha, hw, hd, _⟩ := h3 i e2 hi hr
    exact ⟨hf, ha, hw, hd⟩

/-- Witness for C5: the 30-store scenario has `current_size = min 30 20 = 20`
and store 25 is retained verbatim at ring slot 5. -/
theorem claim5_witness :
    filledBuffer.current_size = min 30 20 ∧
    filledBuffer.frame_store (25 % 20) 0 = (scaledStep 25).frames 0 ∧
    filledBuffer.done_store (25 % 20) 0 = (scaledStep 25).dones 0 := by
  refine ⟨(claim5_capacity_law 20 2 4 1 1 [] scaledStep 30).1, ?_, ?_⟩
  · exact ((claim5_capacity_law 20 2 4 1 1 [] scaledStep 30).2.2 25 0 (by decide)
      (by decide)).1
  · exact ((claim5_capacity_law 20 2 4 1 1 [] scaledStep 30).2.2 25 0 (by decide)
      (by decide)).2.2.2

/-- Witness for C1 (amended): in the dones scenario the query at slot 3 of
environment 0, whose most recent done boundary is slot 2, returns three zero
frames followed by the raw observation of store 23 (value 24). -/
theorem claim1_witness :
    get_frame donesBuffer 3 0 4 =
      .ok [zeroFrame donesBuffer, zeroFrame donesBuffer, zeroFrame donesBuffer,
           List.replicate 4 24] ∧
    [zeroFrame donesBuffer, zeroFrame donesBuffer, zeroFrame donesBuffer,
      List.replicate 4 24] =
      List.replicate (4 - 1 - (3 - 1 - 2)) (zeroFrame donesBuffer) ++
      (List.range (3 - 1 - 2)).map (fun k => donesBuffer.frame_store (2 + 1 + k) 0) ++
      [donesBuffer.frame_store 3 0] :=
  ⟨by decide,
   claim1_zero_padding_amended donesBuffer 0 3 2 4
     [zeroFrame donesBuffer, zeroFrame donesBuffer, zeroFrame donesBuffer,
      List.replicate 4 24]
     (by decide) (by decide) (by decide) (by decide)
     (by intro j hj1 hj2; omega) (by decide)⟩

/-- Witness for C7: the scenario window at `(0, 0)` with history 4 has
length 4, ends with the raw stored observation of slot 0, and all its frames
have the declared flattened size. -/
theorem claim7_witness :
    [List.replicate 4 (18 : Int), List.replicate 4 19, List.replicate 4 20,
      List.replicate 4 21].length = 4 ∧
    [List.replicate 4 (18 : Int), List.replicate 4 19, List.replicate 4 20,
      List.replicate 4 21].getLast? = some (filledBuffer.frame_store 0 0) ∧
    ∀ fr ∈ [List.replicate 4 (18 : Int), List.replicate 4 19, List.replicate 4 20,
      List.replicate 4 21], fr.length = filledBuffer.obs_size :=
  claim7_frame_shape filledBuffer 0 0 4
    [List.replicate 4 (18 : Int), List.replicate 4 19, List.replicate 4 20,
      List.replicate 4 21]
    (by decide)
    (fun s e2 => buildBuffer_frame_length 20 2 4 1 1 [] scaledStep
      (by
        intro i e3
        simp only [scaledStep]
        split <;> simp) 30 s e2)
    (by decide)

/-! ### Claim C9: assertion versus range error -/

/-- Claim C9: requesting `history_length > 1` against storage whose trailing
observation axis is not 1 fails with the assertion class — not with the
buffer's RangeError — for both `get_frame` and `get_transition` at any
in-range index, while the same calls with the default `history_length = 1`
succeed (shown on the `(2,)`-observation scenario buffer). -/
theorem claim9_assertion_class :
    (∀ (b : Buffer) (idx e hist : Nat), idx < b.current_size → 1 < hist →
        b.obs_last_dim ≠ 1 →
        get_frame b idx e hist = .error .assertionError ∧
        get_transition b idx e hist = .error .assertionError) ∧
    (get_frame flexBuffer 0 0 1 = .ok [[21, 210]] ∧
     exOk (get_transition flexBuffer 0 0 1) = true ∧
     get_frame flexBuffer 0 0 2 = .error .assertionError ∧
     get_transition flexBuffer 0 0 2 = .error .assertionError) := by
  constructor
  · intro b idx e hist hidx hh hdim
    have hgf : get_frame b idx e hist = .error .assertionError := by
      simp only [get_frame]
      rw [if_neg (by omega), if_pos ⟨hh, hdim⟩]
    refine ⟨hgf, ?_⟩
    simp only [get_transition, get_frame_with_future, hgf, Bind.bind, Except.bind]
  · exact ⟨by decide, by decide, by decide, by decide⟩

/-- Witness for C9: the `(2,)`-observation buffer asserts on a history-2
`get_frame` at the valid index 0. -/
theorem claim9_witness :
    get_frame flexBuffer 0 0 2 = .error .assertionError ∧
    get_transition flexBuffer 0 0 2 = .error .assertionError :=
  claim9_assertion_class.1 flexBuffer 0 0 2 (by decide) (by decide) (by decide)

/-! ### Claim C10: the successor window at a done boundary -/

/-- The successor window of a transition flagged done is the shifted current
window closed with a zero frame. -/
theorem state1_of_done {b : Buffer} {idx e hist : Nat} {tr : Transition}
    (h : get_transition b idx e hist = .ok tr)
    (hd : b.done_store idx e = true) :
    tr.state1 = tr.state.drop 1 ++ [zeroFrame b] := by
  obtain ⟨pf, hpf, hs, hs1, _, _, _, _⟩ := get_transition_ok_elim h
  obtain ⟨_, _, hfut⟩ := get_fwf_ok_elim hpf
  rw [hs1, hfut, if_pos hd, hs]

/-- Claim C10: whenever the queried timestep's stored done flag is true, the
successor observation window returned by `get_transition` (and by every cell
of `get_batch`) is the current window shifted by one and closed with an
exactly-zero newest slot — the first frame of the following episode is never
exposed. -/
theorem claim10_done_successor :
    (∀ (b : Buffer) (idx e hist : Nat) (tr : Transition),
        get_transition b idx e hist = .ok tr → b.done_store idx e = true →
        tr.state1 = tr.state.drop 1 ++ [zeroFrame b] ∧
        tr.state1.getLast? = some (zeroFrame b)) ∧
    (∀ (b : Buffer) (rows : List (List Nat)) (hist : Nat)
        (res : List (List Transition)) (r c : Nat) (row : List Nat)
        (trow : List Transition) (tr : Transition),
        get_batch b rows hist = .ok res → rows.get? r = some row →
        res.get? r = some trow → trow.get? c = some tr → tr.done = true →
        tr.state1 = tr.state.drop 1 ++ [zeroFrame b] ∧
        tr.state1.getLast? = some (zeroFrame b)) := by
  constructor
  · intro b idx e hist tr h hd
    have h1 := state1_of_done h hd
    exact ⟨h1, by rw [h1]; exact List.getLast?_concat _⟩
  · intro b rows hist res r c row trow tr hb hrow hres hcell hd
    have htr := get_batch_cell hb hrow hres hcell
    obtain ⟨pf, _, _, _, _, _, hdone, _⟩ := get_transition_ok_elim htr
    have h1 := state1_of_done htr (by rw [← hdone]; exact hd)
    exact ⟨h1, by rw [h1]; exact List.getLast?_concat _⟩

/-- Witness for C10: in the dones scenario, slot 2 of environment 0 is a done
boundary; its transition's successor window is the shifted current window
`[22, 23, 24]`-valued frames closed with the zero frame. -/
theorem claim10_witness :
    (Transition.mk
        [List.replicate 4 (20 : Int), List.replicate 4 21, List.replicate 4 22,
         List.replicate 4 23]
        [0] (mkRat 22 2) true
        [List.replicate 4 (21 : Int), List.replicate 4 22, List.replicate 4 23,
         zeroFrame donesBuffer]
        []).state1 =
      (Transition.mk
        [List.replicate 4 (20 : Int), List.replicate 4 21, List.replicate 4 22,
         List.replicate 4 23]
        [0] (mkRat 22 2) true
        [List.replicate 4 (21 : Int), List.replicate 4 22, List.replicate 4 23,
         zeroFrame donesBuffer]
        []).state.drop 1 ++ [zeroFrame donesBuffer] ∧
    (Transition.mk
        [List.replicate 4 (20 : Int), List.replicate 4 21, List.replicate 4 22,
         List.replicate 4 23]
        [0] (mkRat 22 2) true
        [List.replicate 4 (21 : Int), List.replicate 4 22, List.replicate 4 23,
         zeroFrame donesBuffer]
        []).state1.getLast? = some (zeroFrame donesBuffer) :=
  claim10_done_successor.1 donesBuffer 2 0 4
    (Transition.mk
      [List.replicate 4 (20 : Int), List.replicate 4 21, List.replicate 4 22,
       List.replicate 4 23]
      [0] (mkRat 22 2) true
      [List.replicate 4 (21 : Int), List.replicate 4 22, List.replicate 4 23,
       zeroFrame donesBuffer]
      [])
    (by decide) (by decide)

/-! ### Claim C8: auxiliary field round-trip -/

theorem lookup_map_self (g : String → Rat) :
    ∀ (names : List String) (nm : String), nm ∈ names →
      List.lookup nm (names.map fun x => (x, g x)) = some (g nm) := by
  intro names
  induction names with
  | nil =>
    intro nm h
    cases h
  | cons a as ih =>
    intro nm h
    by_cases hh : nm = a
    · subst hh
      simp [List.lookup]
    · have hb : (nm == a) = false := by simp [hh]
      simp only [List.map_cons, List.lookup, hb]
      exact ih nm (List.mem_of_ne_of_mem hh h)

/-- The auxiliary fields of a retrieved transition are read verbatim from the
ring slot that was queried. -/
theorem extra_of_get_transition {b : Buffer} {idx e hist : Nat}
    {tr : Transition} {nm : String}
    (h : get_transition b idx e hist = .ok tr) (hnm : nm ∈ b.extra_names) :
    List.lookup nm tr.extra = some (b.extra_stores nm idx e) := by
  obtain ⟨pf, _, _, _, _, _, _, hex⟩ := get_transition_ok_elim h
  rw [hex]
  exact lookup_map_self _ _ _ hnm

/-- Claim C8: the value supplied in `extra_info` for a declared auxiliary
field when storing timestep `i` is returned verbatim — no history stacking,
no padding — by `get_transition` and by the matching cell of `get_batch`
whenever the ring slot of timestep `i` (which holds it as long as `i` is
among the most recent `capacity` stores) is queried. -/
theorem claim8_extra_roundtrip (cap ne os old as : Nat) (names : List String)
    (f : Nat → StepInput) (n i : Nat) (nm : String)
    (hi : i < n) (hrecent : n ≤ i + cap) (hnm : nm ∈ names) :
    (∀ (e hist : Nat) (tr : Transition),
        get_transition (buildBuffer cap ne os old as names f n) (i % cap) e hist =
          .ok tr →
        List.lookup nm tr.extra = some ((f i).extras nm e)) ∧
    (∀ (rows : List (List Nat)) (hist : Nat) (res : List (List Transition))
        (r c : Nat) (row : List Nat) (trow : List Transition) (tr : Transition),
        get_batch (buildBuffer cap ne os old as names f n) rows hist = .ok res →
        rows.get? r = some row → res.get? r = some trow → trow.get? c = some tr →
        row.getD c 0 = i % cap →
        List.lookup nm tr.extra = some ((f i).extras nm c)) := by
  have hstore := ((buildBuffer_content cap ne os old as names f n).2.2 i)
  constructor
  · intro e hist tr htr
    have hval := extra_of_get_transition htr
      (by rw [buildBuffer_extra_names]; exact hnm)
    rw [hval, (hstore e hi hrecent).2.2.2.2 nm hnm]
  · intro rows hist res r c row trow tr hb hrow hres hcell hgetd
    have htr := get_batch_cell hb hrow hres hcell
    rw [hgetd] at htr
    have hval := extra_of_get_transition htr
      (by rw [buildBuffer_extra_names]; exact hnm)
    rw [hval, (hstore c hi hrecent).2.2.2.2 nm hnm]

/-- Witness for C8: in the `neglogp` scenario, the value `20/30` stored with
timestep 20 comes back verbatim from `get_transition` at ring slot
`20 % 20 = 0` of environment 0. -/
theorem claim8_witness :
    List.lookup "neglogp"
        (Transition.mk
          [List.replicate 4 (18 : Int), List.replicate 4 19, List.replicate 4 20,
           List.replicate 4 21]
          [0] (mkRat 20 2) false
          [List.replicate 4 (19 : Int), List.replicate 4 20, List.replicate 4 21,
           List.replicate 4 22]
          [("neglogp", mkRat 20 30)]).extra =
      some ((extraStep 20).extras "neglogp" 0) :=
  (claim8_extra_roundtrip 20 2 4 1 1 ["neglogp"] extraStep 30 20 "neglogp"
      (by decide) (by decide) (by decide)).1 0 4
    (Transition.mk
      [List.replicate 4 (18 : Int), List.replicate 4 19, List.replicate 4 20,
       List.replicate 4 21]
      [0] (mkRat 20 2) false
      [List.replicate 4 (19 : Int), List.replicate 4 20, List.replicate 4 21,
       List.replicate 4 22]
      [("neglogp", mkRat 20 30)])
    (by decide)

/-! ### Claim C3: the range law -/

theorem ringPred_formula (cap a : Nat) (hc : 0 < cap) (ha : a < cap) :
    (a + cap - 1) % cap = if a = 0 then cap - 1 else a - 1 := by
  by_cases h : a = 0
  · subst h
    rw [if_pos rfl]
    have h1 : 0 + cap - 1 = cap - 1 := by omega
    rw [h1, Nat.mod_eq_of_lt (by omega)]
  · rw [if_neg h]
    have h1 : a + cap - 1 = (a - 1) + cap := by omega
    rw [h1, Nat.add_mod_right, Nat.mod_eq_of_lt (by omega)]

theorem ringPred_eq_iff (cap a c : Nat) (hc : 0 < cap) (ha : a < cap)
    (hcc : c < cap) :
    ((a + cap - 1) % cap = (c + cap - 1) % cap) ↔ a = c := by
  rw [ringPred_formula cap a hc ha, ringPred_formula cap c hc hcc]
  split <;> split <;> omega

/-- Stepping the anchor one slot back decreases the ring distance from the
write pointer by exactly one (as long as the anchor is not the pointer). -/
theorem ring_sub_one (cap w i : Nat) (hc : 0 < cap) (hw : w < cap)
    (hi : i < cap) (hne : i ≠ w) :
    ((i + cap - 1) % cap + cap - w) % cap + 1 = (i + cap - w) % cap := by
  rw [ringPred_formula cap i hc hi]
  by_cases h0 : i = 0
  · subst h0
    rw [if_pos rfl]
    have hwpos : 0 < w := Nat.pos_of_ne_zero fun hh => hne hh.symm
    have e1 : cap - 1 + cap - w = (cap - 1 - w) + cap := by omega
    rw [e1, Nat.add_mod_right, Nat.mod_eq_of_lt (by omega)]
    have e2 : 0 + cap - w = cap - w := by omega
    rw [e2, Nat.mod_eq_of_lt (by omega)]
    omega
  · rw [if_neg h0]
    rcases Nat.lt_or_ge (i - 1) w with hwi | hwi
    · have hgt : i < w := by omega
      have e1 : i - 1 + cap - w = i + cap - w - 1 := by omega
      rw [e1, Nat.mod_eq_of_lt (by omega), Nat.mod_eq_of_lt (by omega)]
      omega
    · have e1 : i - 1 + cap - w = (i - 1 - w) + cap := by omega
      rw [e1, Nat.add_mod_right, Nat.mod_eq_of_lt (by omega)]
      have e2 : i + cap - w = (i - w) + cap := by omega
      rw [e2, Nat.add_mod_right, Nat.mod_eq_of_lt (by omega)]
      omega

/-- In a full buffer with no done flags for the scanned environment, the
history scan succeeds exactly when the requested number of backward steps
does not reach the write pointer's slot. -/
theorem frameAcc_descent (b : Buffer) (e : Nat)
    (hfull : b.current_size = b.capacity) (hc : 0 < b.capacity)
    (hwp : b.write_pointer < b.capacity)
    (hnd : ∀ s, s < b.capacity → b.done_store s e = false) :
    ∀ (n idx : Nat) (acc : List (List Int)), idx < b.capacity →
      (exOk (frameAcc b e n idx acc) = true ↔
        n ≤ (idx + b.capacity - b.write_pointer) % b.capacity) := by
  intro n
  induction n with
  | zero =>
    intro idx acc hidx
    simp [frameAcc, exOk]
  | succ n ih =>
    intro idx acc hidx
    simp only [frameAcc]
    by_cases hiw : idx = b.write_pointer
    · subst hiw
      rw [if_pos (show (b.write_pointer + b.capacity - 1) % b.capacity =
        b.lastWritten from rfl)]
      have hz : (b.write_pointer + b.capacity - b.write_pointer) % b.capacity = 0 := by
        have h1 : b.write_pointer + b.capacity - b.write_pointer = b.capacity := by
          omega
        rw [h1, Nat.mod_self]
      rw [hz]
      simp [exOk]
    · have hne : ¬((idx + b.capacity - 1) % b.capacity = b.lastWritten) := by
        intro hcon
        simp only [Buffer.lastWritten] at hcon
        exact hiw ((ringPred_eq_iff b.capacity idx b.write_pointer hc hidx hwp).mp hcon)
      rw [if_neg hne]
      rw [if_neg (fun hcon : b.current_size < b.capacity ∧
        idx ≤ (idx + b.capacity - 1) % b.capacity => absurd hcon.1 (by omega))]
      rw [if_neg (by simp [hnd _ (Nat.mod_lt _ hc)])]
      rw [ih ((idx + b.capacity - 1) % b.capacity) _ (Nat.mod_lt _ hc)]
      have hsub := ring_sub_one b.capacity b.write_pointer idx hc hwp hidx hiw
      omega

/-- Claim C3 (amended): `get_frame` raises the range error for every index at
or beyond `current_size`; on a full buffer with no done flags in the scanned
environment the error otherwise strikes exactly the `history_length - 1`
slots starting at the write pointer (ring distance `< history_length - 1`) —
not a `num_envs`-determined zone, and not the complement of a contiguous
`[0, current_size - num_envs)` range; and every cell index of a successful
`get_batch` lies below `current_size`. -/
theorem claim3_range_law_amended :
    (∀ (b : Buffer) (idx e hist : Nat), b.current_size ≤ idx →
        get_frame b idx e hist =
          .error (.velException "Requested frame beyond the size of the buffer")) ∧
    (∀ (b : Buffer) (idx e hist : Nat),
        b.current_size = b.capacity → 0 < b.capacity →
        b.write_pointer < b.capacity → b.obs_last_dim = 1 →
        (∀ s, s < b.capacity → b.done_store s e = false) →
        idx < b.capacity →
        (exOk (get_frame b idx e hist) = true ↔
          hist - 1 ≤ (idx + b.capacity - b.write_pointer) % b.capacity)) ∧
    (∀ (b : Buffer) (rows : List (List Nat)) (hist : Nat)
        (res : List (List Transition)) (r c : Nat) (row : List Nat)
        (trow : List Transition) (tr : Transition),
        get_batch b rows hist = .ok res → rows.get? r = some row →
        res.get? r = some trow → trow.get? c = some tr →
        row.getD c 0 < b.current_size) := by
  refine ⟨?_, ?_, ?_⟩
  · intro b idx e hist h
    simp only [get_frame]
    rw [if_pos h]
  · intro b idx e hist hfull hc hwp hdim hnd hidx
    simp only [get_frame]
    rw [if_neg (by omega), if_neg (fun hcon => hcon.2 hdim)]
    exact frameAcc_descent b e hfull hc hwp hnd (hist - 1) idx _ hidx
  · intro b rows hist res r c row trow tr hb hrow hres hcell
    have htr := get_batch_cell hb hrow hres hcell
    obtain ⟨pf, hpf, _⟩ := get_transition_ok_elim htr
    obtain ⟨hgf, _, _⟩ := get_fwf_ok_elim hpf
    exact (get_frame_ok_elim hgf).1

/-- Claim C3 as frozen is refuted by the full scenario buffer: the newest
`num_envs = 2` written slots are 8 and 9 (`lastWritten = 9`), yet history-4
queries there succeed; indices 18 and 19 lie outside the claimed valid range
`[0, current_size - num_envs) = [0, 18)`, yet succeed; and index 10 lies
inside the claimed valid range, yet raises the range error. -/
theorem claim3_counterexample :
    filledBuffer.current_size = 20 ∧
    filledBuffer.num_envs = 2 ∧
    filledBuffer.lastWritten = 9 ∧
    exOk (get_frame filledBuffer 8 0 4) = true ∧
    exOk (get_frame filledBuffer 9 0 4) = true ∧
    exOk (get_frame filledBuffer 18 0 4) = true ∧
    exOk (get_frame filledBuffer 19 0 4) = true ∧
    exOk (get_frame filledBuffer 10 0 4) = false ∧
    isRangeErr (get_frame filledBuffer 10 0 4) = true := by
  decide

/-- Witness for C3 (amended): index 25 is beyond `current_size` and raises
the range error; index 13 is at ring distance 3 from the write pointer, so a
history-4 query succeeds. -/
theorem claim3_witness :
    get_frame filledBuffer 25 0 4 =
      .error (.velException "Requested frame beyond the size of the buffer") ∧
    exOk (get_frame filledBuffer 13 0 4) = true :=
  ⟨claim3_range_law_amended.1 filledBuffer 25 0 4 (by decide),
   (claim3_range_law_amended.2.1 filledBuffer 13 0 4 (by decide) (by decide)
      (by decide) (by decide) (by decide) (by decide)).mpr (by decide)⟩

/-! ### Claim C6: the rollout sampling law -/

theorem getD_replicate {α} (a d : α) {n k : Nat} (h : k < n) :
    (List.replicate n a).getD k d = a := by
  rw [List.getD_eq_getElem?_getD, List.getElem?_replicate_of_lt h]
  rfl

theorem getD_map_range {α} (f : Nat → α) (d : α) {n k : Nat} (h : k < n) :
    ((List.range n).map f).getD k d = f k := by
  rw [List.getD_eq_getElem?_getD, List.getElem?_map, List.getElem?_range h]
  rfl

theorem getD_mem {l : List Nat} {k : Nat} (h : k < l.length) : l.getD k 0 ∈ l := by
  rw [List.getD_eq_getElem?_getD, List.getElem?_eq_getElem h]
  exact List.getElem_mem h

theorem sample_empty (b : Buffer) (R hist : Nat) (u : Nat → Nat)
    (hv : rolloutValidIndices b R hist = []) :
    exOk (sample_batch_rollout b R hist u) = false := by
  simp only [sample_batch_rollout, hv]
  rfl

theorem sample_singleton (b : Buffer) (R hist v : Nat) (u : Nat → Nat)
    (hv : rolloutValidIndices b R hist = [v]) (hne : b.num_envs = 2) :
    sample_batch_rollout b R hist u = .ok [v, v] := by
  simp only [sample_batch_rollout, hv, hne]
  rw [if_neg (by simp)]
  simp [List.range_succ, Nat.mod_one]

/-- Claim C6: `sample_batch_rollout` fails with the range error exactly when
no ending index supports reading `rollout_length` consecutive valid
transitions in every environment (equivalently, when the rollout length
exceeds what the current fill level supports); every index vector it returns
has one entry per environment and is accepted by `get_rollout`; concretely,
on the half-filled scenario length 10 fails while length 9 always returns
`[8, 8]`, and on the full scenario length 17 fails while length 16 always
returns `[8, 8]`. -/
theorem claim6_rollout_sampling :
    (∀ (b : Buffer) (R hist : Nat) (u : Nat → Nat) (idxs : List Nat),
        sample_batch_rollout b R hist u = .ok idxs →
        idxs.length = b.num_envs ∧ exOk (get_rollout b idxs R hist) = true) ∧
    (∀ (b : Buffer) (R hist : Nat) (u : Nat → Nat),
        exOk (sample_batch_rollout b R hist u) = false ↔
        ∀ idx, idx < b.capacity →
          exOk (get_rollout b (List.replicate b.num_envs idx) R hist) = false) ∧
    (∀ u : Nat → Nat, exOk (sample_batch_rollout halfBuffer 10 4 u) = false) ∧
    (∀ u : Nat → Nat, sample_batch_rollout halfBuffer 9 4 u = .ok [8, 8]) ∧
    (∀ u : Nat → Nat, exOk (sample_batch_rollout filledBuffer 17 4 u) = false) ∧
    (∀ u : Nat → Nat, sample_batch_rollout filledBuffer 16 4 u = .ok [8, 8]) := by
  refine ⟨?_, ?_, ?_, ?_, ?_, ?_⟩
  · intro b R hist u idxs h
    simp only [sample_batch_rollout] at h
    by_cases hv : (rolloutValidIndices b R hist).length = 0
    · rw [if_pos hv] at h
      simp at h
    · rw [if_neg hv] at h
      cases h
      refine ⟨by simp, ?_⟩
      apply exOk_exList_iff.mpr
      intro e2 he2
      have he2lt : e2 < b.num_envs := List.mem_range.mp he2
      have hlen0 : 0 < (rolloutValidIndices b R hist).length := by omega
      have hmem : (rolloutValidIndices b R hist).getD
          (u e2 % (rolloutValidIndices b R hist).length) 0 ∈
          rolloutValidIndices b R hist :=
        getD_mem (Nat.mod_lt _ hlen0)
      have hp := List.of_mem_filter hmem
      have hcomp := exOk_exList_iff.mp hp e2 he2
      simp only [getD_replicate _ _ he2lt] at hcomp
      simp only [getD_map_range _ _ he2lt]
      exact hcomp
  · intro b R hist u
    by_cases hv : (rolloutValidIndices b R hist).length = 0
    · have hnil : rolloutValidIndices b R hist = [] := List.length_eq_zero.mp hv
      have hall := List.filter_eq_nil_iff.mp hnil
      constructor
      · intro _ idx hidx
        have hni := hall idx (List.mem_range.mpr hidx)
        simpa using hni
      · intro _
        simp only [sample_batch_rollout, hv]
        simp [exOk]
    · constructor
      · intro hfalse
        exfalso
        simp only [sample_batch_rollout] at hfalse
        rw [if_neg hv] at hfalse
        simp [exOk] at hfalse
      · intro hall
        exfalso
        have hlen0 : 0 < (rolloutValidIndices b R hist).length := by omega
        have hmem : (rolloutValidIndices b R hist).getD 0 0 ∈
            rolloutValidIndices b R hist := getD_mem hlen0
        have hp := List.of_mem_filter hmem
        have hin := List.mem_of_mem_filter hmem
        have hbad := hall _ (List.mem_range.mp hin)
        rw [hp] at hbad
        simp at hbad
  · intro u
    exact sample_empty halfBuffer 10 4 u (by decide)
  · intro u
    exact sample_singleton halfBuffer 9 4 8 u (by decide) (by decide)
  · intro u
    exact sample_empty filledBuffer 17 4 u (by decide)
  · intro u
    exact sample_singleton filledBuffer 16 4 8 u (by decide) (by decide)

/-- Witness for C6: the maximal full-scenario rollout sample `[8, 8]` has one
index per environment and is accepted by `get_rollout`. -/
theorem claim6_witness :
    ([8, 8] : List Nat).length = filledBuffer.num_envs ∧
    exOk (get_rollout filledBuffer [8, 8] 16 4) = true :=
  claim6_rollout_sampling.1 filledBuffer 16 4 (fun _ => 0) [8, 8]
    (claim6_rollout_sampling.2.2.2.2.2 (fun _ => 0))

end Vel
